import Mathlib

/-
  Verification of the private-blockchain chain store (src/blockchain.js).

  Shallow embedding conventions:
  * `Blockchain` instance state is a `ChainState` (the `chain` array and the
    `height` counter); every method becomes a function on `ChainState`.
  * Promise-returning methods that can fail return an explicit outcome type;
    `Option` at the outside models settlement: `none` means the promise did
    not settle within the given fuel (the backward walk of `validateChain`
    is a `while` loop, so the embedding is fuel-indexed).
  * `block.js` is not part of src/; the Block data unit, its hash, its
    `validate()` and its `getBData()` are modelled from the spec (sections
    3 and 4.1), with the cryptographic digest idealised as an injective
    (collision-free) function of the hashed fields.
  * JS strings reaching `parseInt` / `split(':')` are modelled on `String`
    with character-level functions mirroring the JS semantics used here.
-/

/-- Decoded block payload: either the genesis marker
own data (the literal object with a `data` field) or a star record
`\x7bowner, star\x7d` as built by `submitStar`. -/
inductive BData where
  | genesisData
  | starData (owner : String) (star : String)
deriving DecidableEq, Repr

/-- Stored (encoded) body of a block: hex-encoded JSON of a `BData`, or
bytes that are not valid encoded data (a corrupted/foreign block; spec 4.1
requires `decode` to fail distinguishably on these). -/
inductive Body where
  | encoded (d : BData)
  | corrupt
deriving DecidableEq, Repr

/-- Modelled from the spec (3, 4.1): the cryptographic digest over the
block fields (height, time, previous_hash, payload), with `hash` excluded
from its own input.  Idealised as a collision-free value: the digest is the
tuple of hashed fields.  Two constructors replace an `Option` field so that
equality stays structurally decidable. -/
inductive HashVal where
  | digestNoPrev (height : Int) (time : Int) (body : Body)
  | digestPrev (height : Int) (time : Int) (prev : HashVal) (body : Body)
deriving DecidableEq, Repr

/-- `SHA256(JSON.stringify(block))` with the hash field excluded (spec 3). -/
def hashFn (height : Int) (time : Int) (prev : Option HashVal) (body : Body) : HashVal :=
  match prev with
  | none => HashVal.digestNoPrev height time body
  | some p => HashVal.digestPrev height time p body

/-- One ledger entry.  `hash` and `previousBlockHash` are `Option` because
the JS fields hold `null` until the chain store assigns them. -/
structure Block where
  hash : Option HashVal
  height : Int
  body : Body
  time : Int
  previousBlockHash : Option HashVal
deriving DecidableEq, Repr

/-- Modelled from the spec (4.1 construct): store the payload encoded;
height/time/previous_hash/hash stay unset (JS `null` / zero) until the
append routine fills them in. -/
def Block.construct (d : BData) : Block :=
  { hash := none, height := 0, body := Body.encoded d, time := 0, previousBlockHash := none }

/-- Modelled from the spec (4.1 validate, block.js not in src/): recompute
the hash over the block's current (height, time, previous_hash, payload)
and compare with the stored `hash`; boolean result, no exception path. -/
def Block.validate (b : Block) : Bool :=
  decide (b.hash = some (hashFn b.height b.time b.previousBlockHash b.body))

/-- Modelled from the spec (4.1 decode_payload, block.js not in src/):
decode the stored body back to its structured form; fails exactly when the
stored bytes are not valid encoded data. -/
def Block.getBData (b : Block) : Except Unit BData :=
  match b.body with
  | Body.encoded d => Except.ok d
  | Body.corrupt => Except.error ()

/-- The decoded payload's `owner` field, when present (`undefined` ↦ `none`). -/
def BData.owner? : BData → Option String
  | BData.genesisData => none
  | BData.starData o _ => some o

/-- The mutable state of a `Blockchain` object: `this.chain` and `this.height`. -/
structure ChainState where
  chain : List Block
  height : Int
deriving DecidableEq, Repr

/-- Entries of the `errorLog` built by `validateChain`.  The JS pushes the
strings "Block with hash <h> is invalid" and
"Blockchain is broken. Last seen block with hash. <h>"; the embedding keeps
them as structured values carrying the identifying hash. -/
inductive ChainError where
  | invalidBlock (h : Option HashVal)
  | chainBroken (lastSeen : Option HashVal)
deriving DecidableEq, Repr

/-- How a `validateChain()` promise can settle.  `crash` records the
`TypeError` raised by dereferencing the `null` result of a failed
`getBlockByHash` lookup: it happens after an `await` inside the
`async (resolve, reject) => ...` executor, so the rejection is unobserved
and the promise never settles. -/
inductive VcOutcome where
  | resolves (errors : List ChainError)
  | crash
deriving DecidableEq, Repr

/-- `getBlockByHash`: `self.chain.filter(b => b.hash === hash)[0] || null`. -/
def getBlockByHash (chain : List Block) (h : Option HashVal) : Option Block :=
  (chain.filter (fun b => decide (b.hash = h))).head?

/-- `getBlockByHeight`: first block whose `height` matches, else null. -/
def getBlockByHeight (st : ChainState) (h : Int) : Option Block :=
  (st.chain.filter (fun b => decide (b.height = h))).head?

/-- `getChainHeight`: resolves with `this.height`. -/
def getChainHeight (st : ChainState) : Int :=
  st.height

/-- The `while (block)` loop of `validateChain`, fuel-indexed.  One
iteration: run the current block's `validate()` and log a failure; look up
the predecessor by `previousBlockHash`; if the lookup misses, the JS
`if (block.height === 0)` dereferences `null` (`crash`); if the
predecessor has height 0 the loop breaks, and the post-loop
`if (block.height !== 0)` is then false, so the loop resolves with the log
(the "Blockchain is broken" push is unreachable: the only loop exits are
the break, with height 0, and the null dereference). -/
def walkLoop (chain : List Block) : Nat → Block → List ChainError → Option VcOutcome
  | 0, _, _ => none
  | fuel + 1, block, errorLog =>
      let errorLog' :=
        if block.validate then errorLog
        else errorLog ++ [ChainError.invalidBlock block.hash]
      match getBlockByHash chain block.previousBlockHash with
      | none => some VcOutcome.crash
      | some next =>
          if next.height = 0 then some (VcOutcome.resolves errorLog')
          else walkLoop chain fuel next errorLog'

/-- `validateChain()`: nothing to check with at most one block; otherwise
walk backward from `chain[chain.length - 1]` with an empty error log. -/
def validateChain (st : ChainState) (fuel : Nat) : Option VcOutcome :=
  if 1 < st.chain.length then
    match st.chain[st.chain.length - 1]? with
    | some tip => walkLoop st.chain fuel tip []
    | none => some (VcOutcome.resolves [])
  else some (VcOutcome.resolves [])

/-- The state-mutating prefix of `_addBlock`, before the validation run:
compute `nextHeight`, link `previousBlockHash` to the block at
`lastBlockHeight` when `nextHeight > 0`, set height/time, compute the
hash, push, and bump `this.height`.  Returns the new state and the pushed
block, or `none` when `self.chain[lastBlockHeight]` is `undefined` and the
`.hash` access throws a `TypeError` (caught by the broad try/catch, which
rejects without mutating anything). -/
def addBlockCore (st : ChainState) (b : Block) (now : Int) : ChainState × Option Block :=
  let lastBlockHeight := st.height
  let nextHeight := lastBlockHeight + 1
  if 0 < nextHeight then
    match st.chain[lastBlockHeight.toNat]? with
    | none => (st, none)
    | some lastBlock =>
        let b1 : Block := { b with previousBlockHash := lastBlock.hash, height := nextHeight, time := now }
        let b2 : Block := { b1 with hash := some (hashFn b1.height b1.time b1.previousBlockHash b1.body) }
        ({ chain := st.chain ++ [b2], height := nextHeight }, some b2)
  else
    let b1 : Block := { b with height := nextHeight, time := now }
    let b2 : Block := { b1 with hash := some (hashFn b1.height b1.time b1.previousBlockHash b1.body) }
    ({ chain := st.chain ++ [b2], height := nextHeight }, some b2)

/-- The state reached by `_addBlock` (independent of how the promise settles). -/
def addBlockState (st : ChainState) (b : Block) (now : Int) : ChainState :=
  (addBlockCore st b now).1

/-- How an `_addBlock` promise can settle. -/
inductive AddOutcome where
  | resolved (b : Block)
  | rejectedInvalid (errors : List ChainError)
  | rejectedTypeError
  | hung
deriving DecidableEq, Repr

/-- `_addBlock(block)`: mutate the state, then `await validateChain()`;
resolve with the block on an empty error log, otherwise reject with the
"Blockchain is invalid" error carrying the log.  When `validateChain`
crashes internally its promise never settles, so neither does `_addBlock`
(`hung`) - the mutation stays either way. -/
def addBlock (st : ChainState) (b : Block) (now : Int) (fuel : Nat) : ChainState × Option AddOutcome :=
  match addBlockCore st b now with
  | (st', none) => (st', some AddOutcome.rejectedTypeError)
  | (st', some b2) =>
      match validateChain st' fuel with
      | none => (st', none)
      | some VcOutcome.crash => (st', some AddOutcome.hung)
      | some (VcOutcome.resolves []) => (st', some (AddOutcome.resolved b2))
      | some (VcOutcome.resolves (e :: errs)) => (st', some (AddOutcome.rejectedInvalid (e :: errs)))

/-- `initializeChain` from the freshly constructed state: height is -1, so
append the genesis block `new Block(\x7bdata: 'Genesis Block'\x7d)`. -/
def initState (t0 : Int) : ChainState :=
  addBlockState { chain := [], height := -1 } (Block.construct BData.genesisData) t0

/-- A sequence of `_addBlock` calls (block, clock reading at append time). -/
def appendRun (st : ChainState) (inputs : List (Block × Int)) : ChainState :=
  inputs.foldl (fun s p => addBlockState s p.1 p.2) st

/-- States reachable through the public operations: the constructed state
(`this.chain = []; this.height = -1`) and any sequence of appends (queries
do not mutate; `initializeChain` is the `_addBlock` of the genesis block). -/
inductive Reachable : ChainState → Prop where
  | constructed : Reachable { chain := [], height := -1 }
  | append (st : ChainState) (b : Block) (now : Int) :
      Reachable st → Reachable (addBlockState st b now)

/-- JS `String.prototype.split` with a single-character separator, at the
character-list level: `"".split(c) = [""]`, a separator occurrence closes
the current group. -/
def splitChar (sep : Char) : List Char → List (List Char)
  | [] => [[]]
  | c :: rest =>
      if c = sep then [] :: splitChar sep rest
      else (c :: (splitChar sep rest).headD []) :: (splitChar sep rest).tail

/-- `message.split(':')` on Lean strings. -/
def jsSplit (sep : Char) (s : String) : List String :=
  (splitChar sep s.data).map String.mk

/-- The longest leading run of decimal digits of a character list. -/
def leadingDigits : List Char → List Char
  | [] => []
  | c :: rest => if c.isDigit then c :: leadingDigits rest else []

/-- Value of a most-significant-first digit string. -/
def digitsToNat (l : List Char) : Nat :=
  l.foldl (fun acc c => 10 * acc + (c.toNat - 48)) 0

/-- JS `parseInt` restricted to what this code feeds it: an optional minus
sign followed by a longest run of decimal digits; `none` models `NaN`
(no parsable prefix).  Leading whitespace / `+` signs never occur here. -/
def parseIntJs (s : String) : Option Int :=
  match s.data with
  | [] => none
  | c :: rest =>
      if c = '-' then
        if (leadingDigits rest).isEmpty then none
        else some (-(digitsToNat (leadingDigits rest) : Int))
      else
        if (leadingDigits (c :: rest)).isEmpty then none
        else some ((digitsToNat (leadingDigits (c :: rest)) : Nat) : Int)

/-- Step 1 of `submitStar`: `parseInt(message.split(':')[1])`; a missing
index-1 segment gives `parseInt(undefined) = NaN` (`none`). -/
def parseMessageTime (message : String) : Option Int :=
  match (jsSplit ':' message)[1]? with
  | none => none
  | some seg => parseIntJs seg

/-- The JS digit character of `d` (`Number.prototype.toString` base 10). -/
def digitChar (d : Nat) : Char :=
  if d = 1 then '1' else if d = 2 then '2' else if d = 3 then '3'
  else if d = 4 then '4' else if d = 5 then '5' else if d = 6 then '6'
  else if d = 7 then '7' else if d = 8 then '8' else if d = 9 then '9'
  else '0'

/-- Decimal rendering of a natural number, most significant digit first
(the clock collaborator's `getTime().toString().slice(0, -3)` output). -/
def natRepr (n : Nat) : List Char :=
  if h : n < 10 then [digitChar n]
  else natRepr (n / 10) ++ [digitChar (n % 10)]
termination_by n
decreasing_by exact Nat.div_lt_self (by omega) (by omega)

/-- `requestMessageOwnershipVerification(address)`: resolves with
`"<address>:<seconds>:starRegistry"` where `<seconds>` is the clock reading
at second resolution. -/
def requestMessageOwnershipVerification (address : String) (nowSeconds : Nat) : String :=
  address ++ ":" ++ String.mk (natRepr nowSeconds) ++ ":starRegistry"

/-- Typed failures a `submitStar` promise can reject with. -/
inductive SubmitError where
  | invalidMessageFormat
  | messageOld
  | verificationFailed
  | blockchainInvalid (errors : List ChainError)
  | typeErr
deriving DecidableEq, Repr

/-- How a `submitStar` promise can settle. -/
inductive SubmitOutcome where
  | resolved (b : Block)
  | rejected (e : SubmitError)
  | hung
deriving DecidableEq, Repr

/-- `submitStar(address, message, signature, star)`: parse the embedded
timestamp (falsy ⇒ invalid format), enforce the 5-minute window
(`currentTime - 5*60 > messageTime` ⇒ too old), check the signature with
the external collaborator `verify`, then delegate to `_addBlock` with the
payload `\x7bowner: address, star\x7d`.  The source reads the clock twice
inside the same second-resolution instant; the embedding passes
`currentTime` for both readings. -/
def submitStar (st : ChainState) (address : String) (message : String)
    (signature : String) (star : String) (currentTime : Int)
    (verify : String → String → String → Bool) (fuel : Nat) :
    ChainState × Option SubmitOutcome :=
  match parseMessageTime message with
  | none => (st, some (SubmitOutcome.rejected SubmitError.invalidMessageFormat))
  | some messageTime =>
      if messageTime = 0 then
        (st, some (SubmitOutcome.rejected SubmitError.invalidMessageFormat))
      else if currentTime - 5 * 60 > messageTime then
        (st, some (SubmitOutcome.rejected SubmitError.messageOld))
      else if verify message address signature then
        match addBlock st (Block.construct (BData.starData address star)) currentTime fuel with
        | (st', none) => (st', none)
        | (st', some (AddOutcome.resolved b)) => (st', some (SubmitOutcome.resolved b))
        | (st', some (AddOutcome.rejectedInvalid errs)) =>
            (st', some (SubmitOutcome.rejected (SubmitError.blockchainInvalid errs)))
        | (st', some AddOutcome.rejectedTypeError) =>
            (st', some (SubmitOutcome.rejected SubmitError.typeErr))
        | (st', some AddOutcome.hung) => (st', some SubmitOutcome.hung)
      else
        (st, some (SubmitOutcome.rejected SubmitError.verificationFailed))

/-- The `for ... of` loop of `getStarsByWalletAddress`: decode each block's
body (the catch swallows decode errors and skips the block), keep the
decoded payloads whose `owner` field equals the queried address. -/
def getStarsLoop (address : String) : List Block → List BData → List BData
  | [], stars => stars
  | b :: rest, stars =>
      match b.getBData with
      | Except.ok d =>
          if d.owner? = some address then getStarsLoop address rest (stars ++ [d])
          else getStarsLoop address rest stars
      | Except.error _ => getStarsLoop address rest stars

/-- `getStarsByWalletAddress(address)`: always resolves, with the collected
decoded payloads in chain order. -/
def getStarsByWalletAddress (st : ChainState) (address : String) : List BData :=
  getStarsLoop address st.chain []

/-- The spec's description of the ownership query (4.2 get_all_owned_by),
written independently of the loop: iterate all blocks in chain order,
drop the ones whose decode fails or whose decoded payload's owner differs
from the queried address, and collect the remaining decoded payloads. -/
def ownedPayloads (chain : List Block) (address : String) : List BData :=
  chain.filterMap (fun b =>
    match b.getBData with
    | Except.ok d => if d.owner? = some address then some d else none
    | Except.error _ => none)

/-- Every stored block's `height` equals its index in the chain array. -/
abbrev heightsIdx (l : List Block) : Prop :=
  ∀ i (h : i < l.length), (l.get ⟨i, h⟩).height = (i : Int)

/-- Every stored block's `hash` is the digest of its own current fields
(equivalently, every block passes its self `validate()`). -/
abbrev hashesStored (l : List Block) : Prop :=
  ∀ i (h : i < l.length),
    (l.get ⟨i, h⟩).hash =
      some (hashFn (l.get ⟨i, h⟩).height (l.get ⟨i, h⟩).time
        (l.get ⟨i, h⟩).previousBlockHash (l.get ⟨i, h⟩).body)

/-- Every stored block's `hash` has the digest shape whose height
component is the block's index (holds for appended chains and is
preserved by tampering with any field other than `hash`). -/
abbrev hashesIndexed (l : List Block) : Prop :=
  ∀ i (h : i < l.length), ∃ t p bd, (l.get ⟨i, h⟩).hash = some (hashFn (i : Int) t p bd)

/-- Every non-genesis stored block's `previousBlockHash` equals the stored
`hash` of the block at the previous index. -/
abbrev linksStored (l : List Block) : Prop :=
  ∀ i (h : i + 1 < l.length),
    (l.get ⟨i + 1, h⟩).previousBlockHash = (l.get ⟨i, Nat.lt_of_succ_lt h⟩).hash

instance decLinksStored (l : List Block) : Decidable (linksStored l) :=
  decidable_of_iff (∀ i (h : i < l.length - 1),
    (l.get ⟨i + 1, by omega⟩).previousBlockHash =
      (l.get ⟨i, by omega⟩).hash) (by
    constructor
    · intro hp i h
      exact hp i (by omega)
    · intro hp i h
      exact hp i (by omega))

/-- The data-model invariants of a chain-store state (spec 3). -/
def GoodSt (st : ChainState) : Prop :=
  st.height = (st.chain.length : Int) - 1 ∧ 1 ≤ st.chain.length ∧
  heightsIdx st.chain ∧ hashesStored st.chain ∧ linksStored st.chain

/-- Error log produced by the backward walk when it starts at index `j`
and descends through indices `j, j-1, ..., 1` (the genesis block at index
0 is reached but never validated). -/
def tailErrors (l : List Block) : Nat → List ChainError
  | 0 => []
  | j + 1 =>
      (match l[j + 1]? with
       | some b => if b.validate then [] else [ChainError.invalidBlock b.hash]
       | none => []) ++ tailErrors l j

/-- The fully populated genesis block as `initializeChain` creates it at
clock reading `t0`. -/
def genesisBlockAt (t0 : Int) : Block :=
  { hash := some (hashFn 0 t0 none (Body.encoded BData.genesisData)),
    height := 0, body := Body.encoded BData.genesisData, time := t0,
    previousBlockHash := none }

/-- The fully populated block `_addBlock` pushes when it links the input
block `b` to the current tip `tip` at clock reading `now`. -/
def pushedBlock (b : Block) (tip : Block) (now : Int) (nextHeight : Int) : Block :=
  { hash := some (hashFn nextHeight now tip.hash b.body),
    height := nextHeight, body := b.body, time := now,
    previousBlockHash := tip.hash }

/-- Fallback block used with `List.getD` on concrete chains. -/
def dfltBlock : Block :=
  Block.construct BData.genesisData

/-- A block with every non-hash field mutable in proofs: the record
`\x7bhash, height, body, time, previousBlockHash\x7d` rebuilt field by field. -/
def mkBlock (hs : Option HashVal) (ht : Int) (bd : Body) (tm : Int) (pv : Option HashVal) : Block :=
  { hash := hs, height := ht, body := bd, time := tm, previousBlockHash := pv }

/-- Freshly initialized store (genesis appended at clock reading 100). -/
def exState0 : ChainState :=
  initState 100

/-- A first submitted block and the clock reading of its append. -/
def exInput1 : Block :=
  Block.construct (BData.starData ("alice") ("star1"))

/-- A second submitted block. -/
def exInput2 : Block :=
  Block.construct (BData.starData ("bob") ("star2"))

/-- Two-block chain: genesis plus one star block. -/
def exState1 : ChainState :=
  appendRun exState0 [(exInput1, 200)]

/-- Three-block chain: genesis plus two star blocks. -/
def exState3 : ChainState :=
  appendRun exState0 [(exInput1, 200), (exInput2, 300)]

/-- Block 1 of `exState1` with its `time` field mutated (hash untouched). -/
def exTamperedB1 : Block :=
  { (exState1.chain.getD 1 dfltBlock) with time := 999 }

/-- `exState1` with block 1 tampered. -/
def exTamperedSt : ChainState :=
  { chain := exState1.chain.set 1 exTamperedB1, height := exState1.height }

/-- The genesis block of `exState1` with its `time` field mutated. -/
def exGenTampered : Block :=
  { (exState1.chain.getD 0 dfltBlock) with time := 777 }

/-- `exState1` with the genesis block tampered. -/
def exGenTamperedSt : ChainState :=
  { chain := exState1.chain.set 0 exGenTampered, height := exState1.height }

/-- Block 1 of `exState1` with `previousBlockHash` mutated to a digest
that no block of the chain has. -/
def exDangBlock : Block :=
  { (exState1.chain.getD 1 dfltBlock) with
      previousBlockHash := some (HashVal.digestNoPrev 999 0 Body.corrupt) }

/-- Chain whose tip's `previousBlockHash` matches no stored hash. -/
def exDangSt : ChainState :=
  { chain := exState1.chain.set 1 exDangBlock, height := exState1.height }

/-- Stored hash of the first cycle block. -/
def cycHash1 : HashVal :=
  HashVal.digestNoPrev 41 0 Body.corrupt

/-- Stored hash of the second cycle block. -/
def cycHash2 : HashVal :=
  HashVal.digestNoPrev 42 0 Body.corrupt

/-- Cycle block at index 1: its predecessor link points at index 2. -/
def cycBlock1 : Block :=
  { hash := some cycHash1, height := 1, body := Body.corrupt, time := 0,
    previousBlockHash := some cycHash2 }

/-- Cycle block at index 2: its predecessor link points back at index 1. -/
def cycBlock2 : Block :=
  { hash := some cycHash2, height := 2, body := Body.corrupt, time := 0,
    previousBlockHash := some cycHash1 }

/-- Chain state whose `previous_hash` links form a cycle between the two
non-genesis blocks, so the backward walk never reaches height 0. -/
def cycSt : ChainState :=
  { chain := [exState1.chain.getD 0 dfltBlock, cycBlock1, cycBlock2], height := 2 }

/-- The block appended by the C2 witness run. -/
def exAppended : Block :=
  (addBlockCore exTamperedSt exInput2 300).2.getD dfltBlock

/-- Block 1 of `exState3` with `time` and payload mutated (hash kept). -/
def exMidTampered : Block :=
  { (exState3.chain.getD 1 dfltBlock) with time := 999, body := Body.corrupt }

/-- `exState3` with its interior block 1 tampered. -/
def exMidTamperedSt : ChainState :=
  { chain := exState3.chain.set 1 exMidTampered, height := 2 }

theorem getStarsLoop_eq (address : String) (l : List Block) :
    ∀ acc, getStarsLoop address l acc = acc ++ ownedPayloads l address := by
  induction l with
  | nil => intro acc; simp [getStarsLoop, ownedPayloads]
  | cons b rest ih =>
      intro acc
      cases hd : b.getBData with
      | ok d =>
          by_cases ho : d.owner? = some address
          · simp [getStarsLoop, hd, ho, ownedPayloads, List.filterMap_cons, ih]
          · simp [getStarsLoop, hd, ho, ownedPayloads, List.filterMap_cons, ih]
      | error e => simp [getStarsLoop, hd, ownedPayloads, List.filterMap_cons, ih]

/-- C9: for every chain state and address, `getStarsByWalletAddress` is a
total function (the promise always resolves, never rejects) whose result
is exactly the decoded payloads of the blocks whose decoded payload's
`owner` equals the address, in chain order; blocks whose decode fails or
whose payload lacks an `owner` field are silently skipped and the decode
errors are swallowed by the loop's catch, exactly as `ownedPayloads`
states the spec's description. -/
theorem getStars_matches_spec (st : ChainState) (address : String) :
    getStarsByWalletAddress st address = ownedPayloads st.chain address := by
  simpa [getStarsByWalletAddress] using getStarsLoop_eq address st.chain []

/-- C1 (code bug evidence): on the concrete chain `exDangSt`, whose tip's
`previous_hash` matches no stored hash, `validateChain` does not resolve
with a broken-chain error list: the `getBlockByHash` lookup yields null
and the following `block.height === 0` dereferences it, so for every
fuel the walk ends in the TypeError outcome and the promise never
settles. -/
theorem validateChain_dangling_crash (fuel : Nat) :
    validateChain exDangSt (fuel + 1) = some VcOutcome.crash := by
  rfl

theorem cyc_walk_none (fuel : Nat) :
    ∀ log, walkLoop cycSt.chain fuel cycBlock1 log = none ∧
      walkLoop cycSt.chain fuel cycBlock2 log = none := by
  induction fuel with
  | zero => intro log; exact ⟨rfl, rfl⟩
  | succ f ih =>
      intro log
      constructor
      · exact (ih (log ++ [ChainError.invalidBlock cycBlock1.hash])).2
      · exact (ih (log ++ [ChainError.invalidBlock cycBlock2.hash])).1

/-- C4 (code bug evidence): on the concrete chain `cycSt`, whose
`previous_hash` links form a cycle between the two non-genesis blocks,
the backward walk of `validateChain` alternates between them forever: for
every fuel the fuel-indexed walk is still running (`none`), so the
promise never resolves and no "chain broken" error is ever recorded. -/
theorem validateChain_cycle_never_settles (fuel : Nat) :
    validateChain cycSt fuel = none := by
  exact (cyc_walk_none fuel []).2

theorem addBlockState_cases (st : ChainState) (b : Block) (now : Int) :
    addBlockState st b now = st ∨
    ((addBlockState st b now).chain.length = st.chain.length + 1 ∧
      (addBlockState st b now).height = st.height + 1) := by
  simp only [addBlockState, addBlockCore]
  by_cases h : 0 < st.height + 1
  · rw [if_pos h]
    cases hg : st.chain[st.height.toNat]? with
    | none => exact Or.inl rfl
    | some lastBlock => refine Or.inr ⟨?_, ?_⟩ <;> simp
  · rw [if_neg h]
    refine Or.inr ⟨?_, ?_⟩ <;> simp

/-- C6: in every state reachable by the public operations (construction,
initialization, appends; queries do not mutate), the `height` counter
equals the chain array's length minus 1: the constructed state has
`height = -1` and an empty chain, and every append either pushes exactly
one block while bumping `height` by one, or (the TypeError path) leaves
the state untouched. -/
theorem height_chain_length_consistent (st : ChainState) (h : Reachable st) :
    st.height = (st.chain.length : Int) - 1 := by
  induction h with
  | constructed => simp
  | append st' b now _ ih =>
      rcases addBlockState_cases st' b now with heq | ⟨hl, hh⟩
      · rw [heq]; exact ih
      · rw [hh, hl, ih]; push_cast; ring

/-- Witness for C6 at a concrete reachable state: the three-block chain
built by initialization and two appends satisfies the invariant. -/
theorem height_chain_length_consistent_w :
    exState3.height = (exState3.chain.length : Int) - 1 :=
  height_chain_length_consistent exState3
    (Reachable.append _ _ _ (Reachable.append _ _ _ (Reachable.append _ _ _ Reachable.constructed)))

theorem addBlockCore_pushed (st : ChainState) (b : Block) (now : Int) (b2 : Block)
    (h : (addBlockCore st b now).2 = some b2) :
    (addBlockCore st b now).1.chain = st.chain ++ [b2] ∧
    (addBlockCore st b now).1.height = st.height + 1 := by
  simp only [addBlockCore] at h ⊢
  by_cases hc : 0 < st.height + 1
  · rw [if_pos hc] at h ⊢
    cases hg : st.chain[st.height.toNat]? with
    | none => rw [hg] at h; simp at h
    | some lastBlock =>
        rw [hg] at h
        simp only [Option.some.injEq] at h
        subst h
        exact ⟨rfl, rfl⟩
  · rw [if_neg hc] at h ⊢
    simp only [Option.some.injEq] at h
    subst h
    exact ⟨rfl, rfl⟩

theorem addBlock_eq_of_validate (st : ChainState) (b : Block) (now : Int) (fuel : Nat)
    (st' : ChainState) (b2 : Block) (e : ChainError) (errs : List ChainError)
    (hc : addBlockCore st b now = (st', some b2))
    (hval : validateChain st' fuel = some (VcOutcome.resolves (e :: errs))) :
    addBlock st b now fuel = (st', some (AddOutcome.rejectedInvalid (e :: errs))) := by
  simp only [addBlock, hc, hval]

/-- C2: whenever the validation run at the end of `_addBlock` reports one
or more errors, the call rejects with exactly that validation error list
attached, yet the pushed block remains at the end of the chain sequence
and the height counter keeps its incremented value: the append physically
took effect and is not rolled back. -/
theorem addBlock_append_not_rolled_back (st : ChainState) (b : Block) (now : Int) (fuel : Nat)
    (b2 : Block) (e : ChainError) (errs : List ChainError)
    (hpush : (addBlockCore st b now).2 = some b2)
    (hval : validateChain (addBlockCore st b now).1 fuel = some (VcOutcome.resolves (e :: errs))) :
    addBlock st b now fuel =
      ((addBlockCore st b now).1, some (AddOutcome.rejectedInvalid (e :: errs))) ∧
    (addBlockCore st b now).1.chain = st.chain ++ [b2] ∧
    (addBlockCore st b now).1.height = st.height + 1 := by
  have hc : addBlockCore st b now = ((addBlockCore st b now).1, some b2) := by
    rw [← hpush]
  exact ⟨addBlock_eq_of_validate st b now fuel _ b2 e errs hc hval,
    addBlockCore_pushed st b now b2 hpush⟩

/-- Witness for C2: appending to the concrete tampered two-block chain
`exTamperedSt` makes the end-of-append validation report one error; the
call rejects with that list, while the appended block `exAppended` is in
the chain and the height counter went from 1 to 2. -/
theorem addBlock_append_not_rolled_back_w :
    addBlock exTamperedSt exInput2 300 9 =
      ((addBlockCore exTamperedSt exInput2 300).1,
        some (AddOutcome.rejectedInvalid [ChainError.invalidBlock exTamperedB1.hash])) ∧
    (addBlockCore exTamperedSt exInput2 300).1.chain = exTamperedSt.chain ++ [exAppended] ∧
    (addBlockCore exTamperedSt exInput2 300).1.height = exTamperedSt.height + 1 :=
  addBlock_append_not_rolled_back exTamperedSt exInput2 300 9 exAppended
    (ChainError.invalidBlock exTamperedB1.hash) [] (by decide) (by decide)

/-- C7: given that the message embeds a parsable, non-falsy timestamp
`mt`, `submitStar` rejects with the expired-challenge error exactly when
`currentTime - 5*60 > mt`: strictly more than 300 seconds elapsed.  At
exactly 300 seconds the comparison is false, so the challenge is still
accepted; at 301 seconds it is expired. -/
theorem submitStar_expiry_boundary (st : ChainState)
    (address message signature star : String) (ct : Int)
    (verify : String → String → String → Bool) (fuel : Nat) (mt : Int)
    (hparse : parseMessageTime message = some mt) (hmz : mt ≠ 0) :
    (submitStar st address message signature star ct verify fuel).2 =
        some (SubmitOutcome.rejected SubmitError.messageOld) ↔ ct - 5 * 60 > mt := by
  constructor
  · intro h
    by_contra hlt
    simp only [submitStar, hparse] at h
    rw [if_neg hmz, if_neg hlt] at h
    cases hv : verify message address signature with
    | false => rw [hv] at h; simp at h
    | true =>
        rw [hv] at h
        simp only [if_true] at h
        rcases ha : addBlock st (Block.construct (BData.starData address star)) ct fuel
          with ⟨st', o⟩
        rw [ha] at h
        rcases o with _ | o
        · simp at h
        · rcases o with b' | es | _ | _ <;> simp at h
  · intro h
    have hlt : mt < ct - 300 := by omega
    simp [submitStar, hparse, hmz, hlt]

/-- Witness for C7 at the boundary: with embedded timestamp 1000, the
submission at current time 1300 (exactly 300 s later) is not rejected as
expired, while at 1301 (301 s later) it is. -/
theorem submitStar_expiry_boundary_w :
    (submitStar exState1 ("a") ("a:1000:starRegistry") ("sig") ("st") 1300
        (fun _ _ _ => true) 9).2 ≠
      some (SubmitOutcome.rejected SubmitError.messageOld) ∧
    (submitStar exState1 ("a") ("a:1000:starRegistry") ("sig") ("st") 1301
        (fun _ _ _ => true) 9).2 =
      some (SubmitOutcome.rejected SubmitError.messageOld) := by
  constructor
  · intro hcon
    have hb := (submitStar_expiry_boundary exState1 ("a") ("a:1000:starRegistry") ("sig")
      ("st") 1300 (fun _ _ _ => true) 9 1000 (by decide) (by decide)).mp hcon
    omega
  · exact (submitStar_expiry_boundary exState1 ("a") ("a:1000:starRegistry") ("sig")
      ("st") 1301 (fun _ _ _ => true) 9 1000 (by decide) (by decide)).mpr (by decide)

/-- C8: every `submitStar` invocation that fails one of its three checks
rejects with the corresponding typed failure and leaves the chain state
unchanged (same chain, same height counter): a missing/falsy embedded
timestamp rejects with the invalid-format error, an embedded timestamp
more than 300 s old rejects with the expired error, and a rejected
signature rejects with the verification failure - in all three cases
`_addBlock` is never reached, so no block is appended. -/
theorem submitStar_failure_atomic (st : ChainState)
    (address message signature star : String) (ct : Int)
    (verify : String → String → String → Bool) (fuel : Nat) :
    ((parseMessageTime message = none ∨ parseMessageTime message = some 0) →
      submitStar st address message signature star ct verify fuel =
        (st, some (SubmitOutcome.rejected SubmitError.invalidMessageFormat))) ∧
    (∀ mt : Int, parseMessageTime message = some mt → mt ≠ 0 → ct - 5 * 60 > mt →
      submitStar st address message signature star ct verify fuel =
        (st, some (SubmitOutcome.rejected SubmitError.messageOld))) ∧
    (∀ mt : Int, parseMessageTime message = some mt → mt ≠ 0 → ¬(ct - 5 * 60 > mt) →
      verify message address signature = false →
      submitStar st address message signature star ct verify fuel =
        (st, some (SubmitOutcome.rejected SubmitError.verificationFailed))) := by
  refine ⟨?_, ?_, ?_⟩
  · rintro (hp | hp) <;> simp [submitStar, hp]
  · intro mt hp hz hold
    have hlt : mt < ct - 300 := by omega
    simp [submitStar, hp, hz, hlt]
  · intro mt hp hz hnold hv
    have hn : ¬ mt < ct - 300 := by omega
    simp [submitStar, hp, hz, hn, hv]

/-- Witness for C8: a signature the collaborator rejects makes the
concrete submission fail with the verification error and leaves
`exState1` untouched. -/
theorem submitStar_failure_atomic_w :
    submitStar exState1 ("a") ("a:1000:starRegistry") ("sig") ("st") 1200
        (fun _ _ _ => false) 9 =
      (exState1, some (SubmitOutcome.rejected SubmitError.verificationFailed)) :=
  (submitStar_failure_atomic exState1 ("a") ("a:1000:starRegistry") ("sig") ("st") 1200
      (fun _ _ _ => false) 9).2.2 1000 (by decide) (by decide) (by decide) (by decide)

theorem splitChar_ne_nil (sep : Char) (l : List Char) : splitChar sep l ≠ [] := by
  cases l with
  | nil => simp [splitChar]
  | cons c rest =>
      simp only [splitChar]
      split <;> simp

theorem splitChar_cons_sep (sep : Char) (r : List Char) :
    splitChar sep (sep :: r) = [] :: splitChar sep r := by
  simp [splitChar]

theorem splitChar_append_no_sep (sep : Char) (l r : List Char) (h : sep ∉ l) :
    splitChar sep (l ++ r) =
      (l ++ (splitChar sep r).headD []) :: (splitChar sep r).tail := by
  induction l with
  | nil =>
      simp only [List.nil_append]
      cases hsr : splitChar sep r with
      | nil => exact absurd hsr (splitChar_ne_nil sep r)
      | cons g gs => simp
  | cons c l ih =>
      have hc : ¬ c = sep := by
        intro e
        exact h (by rw [e]; exact List.mem_cons_self _ _)
      have hl : sep ∉ l := fun hm => h (List.mem_cons_of_mem _ hm)
      simp only [List.cons_append, splitChar, if_neg hc, List.append_eq]
      rw [ih hl]
      simp

theorem splitChar_no_sep (sep : Char) (l : List Char) (h : sep ∉ l) :
    splitChar sep l = [l] := by
  have hx := splitChar_append_no_sep sep l [] h
  have h0 : splitChar sep [] = [[]] := rfl
  rw [List.append_nil, h0] at hx
  simpa using hx

theorem digitChar_isDigit (d : Nat) : (digitChar d).isDigit = true := by
  unfold digitChar
  split_ifs <;> decide

theorem digitChar_val (d : Nat) (h : d < 10) : (digitChar d).toNat - 48 = d := by
  interval_cases d <;> decide

theorem natRepr_ne_nil (n : Nat) : natRepr n ≠ [] := by
  rw [natRepr]
  split_ifs <;> simp

theorem natRepr_digits (n : Nat) : ∀ c ∈ natRepr n, c.isDigit = true := by
  induction n using Nat.strong_induction_on with
  | _ n ih =>
      rw [natRepr]
      split_ifs with h
      · intro c hc
        simp only [List.mem_singleton] at hc
        subst hc
        exact digitChar_isDigit n
      · intro c hc
        rcases List.mem_append.mp hc with h1 | h2
        · exact ih (n / 10) (Nat.div_lt_self (by omega) (by omega)) c h1
        · simp only [List.mem_singleton] at h2
          subst h2
          exact digitChar_isDigit _

theorem digitsToNat_append_digit (l : List Char) (c : Char) :
    digitsToNat (l ++ [c]) = 10 * digitsToNat l + (c.toNat - 48) := by
  simp [digitsToNat, List.foldl_append]

theorem digitsToNat_natRepr (n : Nat) : digitsToNat (natRepr n) = n := by
  induction n using Nat.strong_induction_on with
  | _ n ih =>
      rw [natRepr]
      split_ifs with h
      · simp [digitsToNat, digitChar_val n h]
      · rw [digitsToNat_append_digit, ih (n / 10) (Nat.div_lt_self (by omega) (by omega)),
          digitChar_val (n % 10) (Nat.mod_lt _ (by omega))]
        omega

theorem leadingDigits_all (l : List Char) (h : ∀ c ∈ l, c.isDigit = true) :
    leadingDigits l = l := by
  induction l with
  | nil => rfl
  | cons c rest ih =>
      simp only [leadingDigits, h c (List.mem_cons_self _ _), if_true]
      rw [ih (fun d hd => h d (List.mem_cons_of_mem _ hd))]

theorem parseIntJs_natRepr (n : Nat) :
    parseIntJs (String.mk (natRepr n)) = some ((n : Nat) : Int) := by
  have hall : ∀ c ∈ natRepr n, c.isDigit = true := natRepr_digits n
  have hld : leadingDigits (natRepr n) = natRepr n := leadingDigits_all _ hall
  cases he : natRepr n with
  | nil => exact absurd he (natRepr_ne_nil n)
  | cons c rest =>
      have hcd : c.isDigit = true := hall c (he ▸ List.mem_cons_self c rest)
      have hcm : ¬ c = '-' := by
        intro e
        rw [e] at hcd
        exact absurd hcd (by decide)
      rw [he] at hld
      have hres : digitsToNat (c :: rest) = n := by
        rw [← he]
        exact digitsToNat_natRepr n
      simp only [parseIntJs, he]
      rw [if_neg hcm, hld]
      simp [hres]

theorem splitChar_message (address : String) (t : Nat)
    (h : (':' : Char) ∉ address.data) :
    splitChar ':' (requestMessageOwnershipVerification address t).data =
      [address.data, natRepr t, (":starRegistry" : String).data.tail] := by
  have ht : (':' : Char) ∉ natRepr t := by
    intro hm
    have hd := natRepr_digits t ':' hm
    exact absurd hd (by decide)
  have hmsg : (requestMessageOwnershipVerification address t).data =
      address.data ++ (':' :: (natRepr t ++ (':' :: (":starRegistry" : String).data.tail))) := by
    simp [requestMessageOwnershipVerification]
  rw [hmsg, splitChar_append_no_sep _ _ _ h, splitChar_cons_sep,
    splitChar_append_no_sep _ _ _ ht, splitChar_cons_sep,
    splitChar_no_sep _ _ (by decide)]
  simp

/-- C10: challenge/submission round-trip - for every address containing no
':' character, if the ownership challenge is issued at second-resolution
time `t`, the timestamp `submitStar` extracts in its first step (parsing
the second ':'-separated segment of the message as an integer) is exactly
`t`.  (An address containing ':' would shift the segments, making the
parsed segment part of the address instead.) -/
theorem challenge_roundtrip (address : String) (t : Nat)
    (h : (':' : Char) ∉ address.data) :
    parseMessageTime (requestMessageOwnershipVerification address t) =
      some ((t : Nat) : Int) := by
  unfold parseMessageTime jsSplit
  rw [splitChar_message address t h]
  simp only [List.map_cons, List.map_nil]
  have hidx :
      [String.mk address.data, String.mk (natRepr t),
        String.mk ((":starRegistry" : String).data.tail)][1]? =
        some (String.mk (natRepr t)) := by
    rfl
  rw [hidx]
  exact parseIntJs_natRepr t

/-- Witness for C10: a concrete ':'-free address and time round-trip. -/
theorem challenge_roundtrip_w :
    parseMessageTime (requestMessageOwnershipVerification ("addr1") 1234) =
      some (1234 : Int) :=
  challenge_roundtrip ("addr1") 1234 (by decide)

theorem hashFn_inj (h1 t1 : Int) (p1 : Option HashVal) (bd1 : Body)
    (h2 t2 : Int) (p2 : Option HashVal) (bd2 : Body) :
    hashFn h1 t1 p1 bd1 = hashFn h2 t2 p2 bd2 ↔
      (h1 = h2 ∧ t1 = t2 ∧ p1 = p2 ∧ bd1 = bd2) := by
  cases p1 <;> cases p2 <;> simp [hashFn]

theorem head_filter_eq_find (p : Block → Bool) (l : List Block) :
    (l.filter p).head? = l.find? p := by
  induction l with
  | nil => rfl
  | cons a t ih => by_cases h : p a <;> simp [List.filter_cons, h, ih]

theorem getBlockByHash_at (l : List Block) (j : Nat) (tgt : Block)
    (hj : l[j]? = some tgt)
    (huniq : ∀ (i : Nat) (b : Block), l[i]? = some b → b.hash = tgt.hash → i = j) :
    getBlockByHash l tgt.hash = some tgt := by
  induction l generalizing j with
  | nil => simp at hj
  | cons a t ih =>
      rw [getBlockByHash, head_filter_eq_find]
      cases j with
      | zero =>
          simp only [List.getElem?_cons_zero, Option.some.injEq] at hj
          subst hj
          simp
      | succ j' =>
          have hne : ¬ (a.hash = tgt.hash) := by
            intro he
            have h0 := huniq 0 a (by simp) he
            omega
          rw [List.find?_cons_of_neg _ (by simpa using hne)]
          have hrec := ih j' (by simpa using hj) (fun i b hb hh => by
            have hs := huniq (i + 1) b (by simpa using hb) hh
            omega)
          rw [getBlockByHash, head_filter_eq_find] at hrec
          exact hrec

theorem heightsIdx_iff (l : List Block) :
    heightsIdx l ↔ ∀ (i : Nat) (b : Block), l[i]? = some b → b.height = (i : Int) := by
  constructor
  · intro hp i b hb
    obtain ⟨hi, hbe⟩ := List.getElem?_eq_some_iff.mp hb
    subst hbe
    simpa using hp i hi
  · intro hp i hi
    simpa using hp i (l.get ⟨i, hi⟩) (by simp)

theorem hashesStored_iff (l : List Block) :
    hashesStored l ↔ ∀ (i : Nat) (b : Block), l[i]? = some b →
      b.hash = some (hashFn b.height b.time b.previousBlockHash b.body) := by
  constructor
  · intro hp i b hb
    obtain ⟨hi, hbe⟩ := List.getElem?_eq_some_iff.mp hb
    subst hbe
    simpa using hp i hi
  · intro hp i hi
    simpa using hp i (l.get ⟨i, hi⟩) (by simp)

theorem linksStored_iff (l : List Block) :
    linksStored l ↔ ∀ (i : Nat) (b bp : Block), l[i + 1]? = some b → l[i]? = some bp →
      b.previousBlockHash = bp.hash := by
  constructor
  · intro hp i b bp hb hbp
    obtain ⟨hi1, he1⟩ := List.getElem?_eq_some_iff.mp hb
    obtain ⟨hi0, he0⟩ := List.getElem?_eq_some_iff.mp hbp
    subst he1
    subst he0
    simpa using hp i hi1
  · intro hp i hi
    simpa using hp i (l.get ⟨i + 1, hi⟩) (l.get ⟨i, Nat.lt_of_succ_lt hi⟩)
      (by simp) (by simp)

theorem lookup_from_shape (l : List Block)
    (hidx : ∀ (i : Nat) (b : Block), l[i]? = some b → ∃ t p bd, b.hash = some (hashFn (i : Int) t p bd))
    (hlink : ∀ (i : Nat) (b bp : Block), l[i + 1]? = some b → l[i]? = some bp →
      b.previousBlockHash = bp.hash) :
    ∀ (i : Nat) (b bp : Block), l[i + 1]? = some b → l[i]? = some bp →
      getBlockByHash l b.previousBlockHash = some bp := by
  intro i b bp hb hbp
  rw [hlink i b bp hb hbp]
  apply getBlockByHash_at l i bp hbp
  intro i' b' hb' hh
  obtain ⟨t1, p1, bd1, he1⟩ := hidx i' b' hb'
  obtain ⟨t2, p2, bd2, he2⟩ := hidx i bp hbp
  rw [he1, he2] at hh
  simp only [Option.some.injEq] at hh
  have hi := ((hashFn_inj _ _ _ _ _ _ _ _).mp hh).1
  exact_mod_cast hi

theorem tailErrors_mem (l : List Block) (k : Nat) (b : Block) (hk : 1 ≤ k)
    (hb : l[k]? = some b) (hv : b.validate = false) :
    ∀ j, k ≤ j → ChainError.invalidBlock b.hash ∈ tailErrors l j := by
  intro j
  induction j with
  | zero => omega
  | succ j' ih =>
      intro hle
      rw [tailErrors]
      by_cases he : k = j' + 1
      · subst he
        rw [hb]
        simp [hv]
      · exact List.mem_append_right _ (ih (by omega))

theorem tailErrors_nil (l : List Block)
    (hall : ∀ (i : Nat) (b : Block), l[i]? = some b → b.validate = true) :
    ∀ j, tailErrors l j = [] := by
  intro j
  induction j with
  | zero => rfl
  | succ j' ih =>
      rw [tailErrors, ih]
      cases hb : l[j' + 1]? with
      | none => simp
      | some b => simp [hall (j' + 1) b hb]

theorem walkLoop_resolves (l : List Block)
    (hH : ∀ (i : Nat) (b : Block), l[i]? = some b → b.height = (i : Int))
    (hlook : ∀ (i : Nat) (b bp : Block), l[i + 1]? = some b → l[i]? = some bp →
      getBlockByHash l b.previousBlockHash = some bp) :
    ∀ j, 1 ≤ j → ∀ b, l[j]? = some b → ∀ fuel, j ≤ fuel → ∀ log,
      walkLoop l fuel b log = some (VcOutcome.resolves (log ++ tailErrors l j)) := by
  intro j
  induction j with
  | zero => omega
  | succ j' ih =>
      intro _ b hb fuel hfuel log
      obtain ⟨f, rfl⟩ : ∃ f, fuel = f + 1 := ⟨fuel - 1, by omega⟩
      have hj1 : j' + 1 < l.length := (List.getElem?_eq_some_iff.mp hb).1
      have hj0 : j' < l.length := by omega
      have hbp : l[j']? = some (l.get ⟨j', hj0⟩) := by simp
      have hlk := hlook j' b (l.get ⟨j', hj0⟩) hb hbp
      have hbph : (l.get ⟨j', hj0⟩).height = (j' : Int) := by
        simpa using hH j' (l.get ⟨j', hj0⟩) hbp
      rw [walkLoop]
      simp only [hlk]
      rw [hbph]
      by_cases hz : j' = 0
      · subst hz
        rw [if_pos (by simp : ((0 : Nat) : Int) = 0)]
        by_cases hv : b.validate <;> simp [tailErrors, hb, hv]
      · rw [if_neg (by exact_mod_cast hz)]
        rw [ih (by omega) (l.get ⟨j', hj0⟩) hbp f (by omega)]
        by_cases hv : b.validate <;> simp [tailErrors, hb, hv]

theorem validateChain_resolves_general (l : List Block) (ht : Int)
    (hlen : 2 ≤ l.length)
    (hH : ∀ (i : Nat) (b : Block), l[i]? = some b → b.height = (i : Int))
    (hlook : ∀ (i : Nat) (b bp : Block), l[i + 1]? = some b → l[i]? = some bp →
      getBlockByHash l b.previousBlockHash = some bp)
    (fuel : Nat) (hfuel : l.length ≤ fuel) :
    validateChain { chain := l, height := ht } fuel =
      some (VcOutcome.resolves (tailErrors l (l.length - 1))) := by
  have h1 : 1 < l.length := by omega
  have hlt : l.length - 1 < l.length := by omega
  have htip : l[l.length - 1]? = some (l.get ⟨l.length - 1, hlt⟩) := by simp
  obtain ⟨j, hj⟩ : ∃ j, l.length - 1 = j + 1 := ⟨l.length - 2, by omega⟩
  rw [validateChain]
  simp only []
  rw [if_pos h1, htip]
  have hw := walkLoop_resolves l hH hlook (l.length - 1) (by omega)
    (l.get ⟨l.length - 1, hlt⟩) htip fuel (by omega) []
  simpa using hw

theorem initState_eq (t0 : Int) :
    initState t0 = { chain := [genesisBlockAt t0], height := 0 } := rfl

theorem initState_good (t0 : Int) : GoodSt (initState t0) := by
  rw [initState_eq]
  refine ⟨by simp, by simp, ?_, ?_, ?_⟩
  · intro i hi
    simp only [List.length_cons, List.length_nil] at hi
    have h0 : i = 0 := by omega
    subst h0
    simp [genesisBlockAt]
  · intro i hi
    simp only [List.length_cons, List.length_nil] at hi
    have h0 : i = 0 := by omega
    subst h0
    rfl
  · intro i hi
    simp only [List.length_cons, List.length_nil] at hi
    omega

theorem addBlockCore_push_eq (st : ChainState) (b : Block) (now : Int) (tip : Block)
    (hc : 0 < st.height + 1) (hget : st.chain[st.height.toNat]? = some tip) :
    addBlockCore st b now =
      ({ chain := st.chain ++ [pushedBlock b tip now (st.height + 1)],
         height := st.height + 1 },
        some (pushedBlock b tip now (st.height + 1))) := by
  simp only [addBlockCore]
  rw [if_pos hc, hget]
  rfl

theorem goodSt_preserved (st : ChainState) (b : Block) (now : Int) (hg : GoodSt st) :
    GoodSt (addBlockState st b now) ∧
    (addBlockState st b now).chain.length = st.chain.length + 1 := by
  obtain ⟨hh, hlen, hH, hS, hL⟩ := hg
  have hHg := (heightsIdx_iff st.chain).mp hH
  have hSg := (hashesStored_iff st.chain).mp hS
  have hLg := (linksStored_iff st.chain).mp hL
  have hc : 0 < st.height + 1 := by omega
  have hlt : st.chain.length - 1 < st.chain.length := by omega
  have htoNat : st.height.toNat = st.chain.length - 1 := by omega
  have hget : st.chain[st.height.toNat]? = some (st.chain.get ⟨st.chain.length - 1, hlt⟩) := by
    rw [htoNat]
    simp
  have hstate := addBlockCore_push_eq st b now _ hc hget
  have htiph : (st.chain.get ⟨st.chain.length - 1, hlt⟩).hash =
      (st.chain.get ⟨st.chain.length - 1, hlt⟩).hash := rfl
  rw [addBlockState, hstate]
  simp only []
  constructor
  · refine ⟨?_, ?_, ?_, ?_, ?_⟩
    · simp only [List.length_append, List.length_cons, List.length_nil]
      push_cast
      omega
    · simp only [List.length_append, List.length_cons, List.length_nil]
      omega
    · rw [heightsIdx_iff]
      intro i bb hbb
      have hib : i < st.chain.length + 1 := by
        have hx := (List.getElem?_eq_some_iff.mp hbb).1
        simpa using hx
      by_cases hi : i < st.chain.length
      · rw [List.getElem?_append_left hi] at hbb
        exact hHg i bb hbb
      · have hieq : i = st.chain.length := by omega
        subst hieq
        rw [List.getElem?_concat_length] at hbb
        simp only [Option.some.injEq] at hbb
        subst hbb
        simp only [pushedBlock]
        omega
    · rw [hashesStored_iff]
      intro i bb hbb
      have hib : i < st.chain.length + 1 := by
        have hx := (List.getElem?_eq_some_iff.mp hbb).1
        simpa using hx
      by_cases hi : i < st.chain.length
      · rw [List.getElem?_append_left hi] at hbb
        exact hSg i bb hbb
      · have hieq : i = st.chain.length := by omega
        subst hieq
        rw [List.getElem?_concat_length] at hbb
        simp only [Option.some.injEq] at hbb
        subst hbb
        rfl
    · rw [linksStored_iff]
      intro i bb bp hbb hbp
      have hib : i + 1 < st.chain.length + 1 := by
        have hx := (List.getElem?_eq_some_iff.mp hbb).1
        simpa using hx
      by_cases hi : i + 1 < st.chain.length
      · rw [List.getElem?_append_left hi] at hbb
        rw [List.getElem?_append_left (by omega)] at hbp
        exact hLg i bb bp hbb hbp
      · have hieq : i + 1 = st.chain.length := by omega
        rw [hieq, List.getElem?_concat_length] at hbb
        simp only [Option.some.injEq] at hbb
        subst hbb
        rw [List.getElem?_append_left (by omega)] at hbp
        have hbp' : st.chain[st.chain.length - 1]? = some bp := by
          rw [show st.chain.length - 1 = i from by omega]
          exact hbp
        have htq : st.chain[st.chain.length - 1]? =
            some (st.chain.get ⟨st.chain.length - 1, hlt⟩) := by simp
        rw [htq] at hbp'
        simp only [Option.some.injEq] at hbp'
        subst hbp'
        simp [pushedBlock]
  · simp

theorem appendRun_good (st : ChainState) (inputs : List (Block × Int)) (hg : GoodSt st) :
    GoodSt (appendRun st inputs) ∧
    (appendRun st inputs).chain.length = st.chain.length + inputs.length := by
  induction inputs generalizing st with
  | nil => simpa [appendRun] using hg
  | cons p rest ih =>
      have h1 := goodSt_preserved st p.1 p.2 hg
      have h2 := ih (addBlockState st p.1 p.2) h1.1
      have hstep : appendRun st (p :: rest) = appendRun (addBlockState st p.1 p.2) rest := by
        simp [appendRun]
      constructor
      · rw [hstep]
        exact h2.1
      · rw [hstep, h2.2, h1.2]
        simp only [List.length_cons]
        omega

/-- C5: for every sequence of N appends starting from a freshly
initialized store (all of which succeed: from a well-formed state the
push path is always taken and, with enough fuel, validation reports no
errors), the height counter equals N (the genesis block is at height 0)
and every block at height i > 0 has `previousBlockHash` equal to the hash
of the block at height i-1 - because `_addBlock` at `next_height > 0`
links the new block to the block currently at `current_height` before
pushing. -/
theorem append_linkage (t0 : Int) (inputs : List (Block × Int)) :
    (appendRun (initState t0) inputs).height = (inputs.length : Int) ∧
    linksStored (appendRun (initState t0) inputs).chain := by
  have h := appendRun_good (initState t0) inputs (initState_good t0)
  obtain ⟨⟨hh, _, _, _, hL⟩, hlen⟩ := h
  refine ⟨?_, hL⟩
  rw [hh, hlen, initState_eq]
  simp

/-- Witness for C5: two concrete appends after initialization give height
2 and correctly linked `previousBlockHash` fields. -/
theorem append_linkage_w :
    (appendRun (initState 100) [(exInput1, 200), (exInput2, 300)]).height = (2 : Int) ∧
    linksStored (appendRun (initState 100) [(exInput1, 200), (exInput2, 300)]).chain := by
  have h := append_linkage 100 [(exInput1, 200), (exInput2, 300)]
  simpa using h

/-- C3 counterexample: the claim fails at the genesis block.  On the
concrete well-formed two-block chain `exState1`, mutating the genesis
block's `time` field (a field other than `hash`) makes its `validate()`
return false, yet `validateChain` - run from the tip at height 1, beyond
the tampered block - resolves with the EMPTY error list: no entry names
the genesis hash, because the backward walk breaks upon reaching the
height-0 block without ever validating it. -/
theorem genesis_tamper_silent :
    Block.validate exGenTampered = false ∧
    validateChain exGenTamperedSt 9 = some (VcOutcome.resolves []) := by
  constructor
  · decide
  · decide

/-- C3 (amended): (a) for every stored block whose `hash` is the digest
of its own fields, mutating any field other than `hash` (height, time,
previous_hash or payload) makes its self `validate()` return false;
(b) chain-level detection holds for interior non-genesis blocks and for
mutations of `time` and/or payload: in a well-formed chain, tampering
with the `time`/`body` of the block at index k (1 ≤ k < tip index) makes
`validateChain` resolve with a non-empty error list containing the entry
naming that block's stored hash.  (The original claim fails for the
genesis block - the walk never validates it, see the counterexample - and
mutating `previous_hash` or `height` can also derail the walk itself, so
those mutations are excluded from the chain-level part.) -/
theorem tamper_detection_amended :
    (∀ (b : Block) (h' t' : Int) (p' : Option HashVal) (bd' : Body),
      b.hash = some (hashFn b.height b.time b.previousBlockHash b.body) →
      ¬(h' = b.height ∧ t' = b.time ∧ p' = b.previousBlockHash ∧ bd' = b.body) →
      Block.validate (mkBlock b.hash h' bd' t' p') = false) ∧
    (∀ (l : List Block) (ht : Int) (k : Nat) (bk : Block) (t' : Int) (bd' : Body),
      heightsIdx l → hashesStored l → linksStored l →
      l[k]? = some bk → 1 ≤ k → k + 1 < l.length →
      ¬(t' = bk.time ∧ bd' = bk.body) →
      ∀ fuel, l.length ≤ fuel →
        Block.validate { bk with time := t', body := bd' } = false ∧
        ∃ errs,
          validateChain { chain := l.set k { bk with time := t', body := bd' },
                          height := ht } fuel = some (VcOutcome.resolves errs) ∧
          ChainError.invalidBlock bk.hash ∈ errs ∧ errs ≠ []) := by
  constructor
  · intro b h' t' p' bd' hs hne
    rw [Block.validate]
    simp only [mkBlock, decide_eq_false_iff_not]
    intro hcon
    rw [hs] at hcon
    simp only [Option.some.injEq] at hcon
    obtain ⟨e1, e2, e3, e4⟩ := (hashFn_inj _ _ _ _ _ _ _ _).mp hcon
    exact hne ⟨e1.symm, e2.symm, e3.symm, e4.symm⟩
  · intro l ht k bk t' bd' hH hS hL hk hk1 hk2 hmut fuel hfuel
    have hHg := (heightsIdx_iff l).mp hH
    have hSg := (hashesStored_iff l).mp hS
    have hLg := (linksStored_iff l).mp hL
    set bk' : Block := { bk with time := t', body := bd' } with hbk'
    set l' := l.set k bk' with hl'
    have hklen : k < l.length := by
      have hx := (List.getElem?_eq_some_iff.mp hk).1
      omega
    have hlen' : l'.length = l.length := by simp [hl']
    have hbkh : bk.hash = some (hashFn bk.height bk.time bk.previousBlockHash bk.body) :=
      hSg k bk hk
    have hbkhh : bk.height = (k : Int) := hHg k bk hk
    have hval : Block.validate bk' = false := by
      rw [Block.validate]
      simp only [decide_eq_false_iff_not, hbk']
      intro hcon
      rw [hbkh] at hcon
      simp only [Option.some.injEq] at hcon
      obtain ⟨e1, e2, e3, e4⟩ := (hashFn_inj _ _ _ _ _ _ _ _).mp hcon
      exact hmut ⟨e2.symm, e4.symm⟩
    have hk' : l'[k]? = some bk' := by
      rw [hl']
      simp [List.getElem?_set_self hklen]
    have hother : ∀ i, i ≠ k → l'[i]? = l[i]? := by
      intro i hi
      rw [hl']
      exact List.getElem?_set_ne (fun he => hi he.symm)
    have hH' : ∀ (i : Nat) (b : Block), l'[i]? = some b → b.height = (i : Int) := by
      intro i bb hbb
      by_cases hik : i = k
      · subst hik
        rw [hk'] at hbb
        simp only [Option.some.injEq] at hbb
        subst hbb
        simpa [hbk'] using hbkhh
      · rw [hother i hik] at hbb
        exact hHg i bb hbb
    have hidx' : ∀ (i : Nat) (b : Block), l'[i]? = some b →
        ∃ t p bd, b.hash = some (hashFn (i : Int) t p bd) := by
      intro i bb hbb
      by_cases hik : i = k
      · subst hik
        rw [hk'] at hbb
        simp only [Option.some.injEq] at hbb
        subst hbb
        refine ⟨bk.time, bk.previousBlockHash, bk.body, ?_⟩
        rw [← hbkhh]
        exact hbkh
      · rw [hother i hik] at hbb
        refine ⟨bb.time, bb.previousBlockHash, bb.body, ?_⟩
        rw [hSg i bb hbb, hHg i bb hbb]
    have hL' : ∀ (i : Nat) (b bp : Block), l'[i + 1]? = some b → l'[i]? = some bp →
        b.previousBlockHash = bp.hash := by
      intro i bb bp hbb hbp
      by_cases hik1 : i + 1 = k
      · rw [hik1, hk'] at hbb
        simp only [Option.some.injEq] at hbb
        subst hbb
        have hbp2 : l[i]? = some bp := by
          rw [← hother i (by omega)]
          exact hbp
        have hlk := hLg i bk bp (by rw [← hik1] at hk; exact hk) hbp2
        show bk.previousBlockHash = bp.hash
        exact hlk
      · by_cases hik0 : i = k
        · rw [hik0, hk'] at hbp
          simp only [Option.some.injEq] at hbp
          subst hbp
          have hbb2 : l[i + 1]? = some bb := by
            rw [← hother (i + 1) hik1]
            exact hbb
          have hlk := hLg i bb bk hbb2 (by rw [← hik0] at hk; exact hk)
          rw [hlk]
        · rw [hother (i + 1) hik1] at hbb
          rw [hother i hik0] at hbp
          exact hLg i bb bp hbb hbp
    have hlook' := lookup_from_shape l' hidx' hL'
    have hvc := validateChain_resolves_general l' ht (by omega) hH' hlook' fuel (by omega)
    have hmem : ChainError.invalidBlock bk'.hash ∈ tailErrors l' (l'.length - 1) :=
      tailErrors_mem l' k bk' hk1 hk' hval (l'.length - 1) (by omega)
    exact ⟨hval, tailErrors l' (l'.length - 1), hvc, hmem, List.ne_nil_of_mem hmem⟩

/-- Witness for C3 (amended) on the concrete three-block chain: tampering
with block 1's time and payload is caught by its own `validate()` and by
`validateChain` run from the tip at height 2. -/
theorem tamper_detection_amended_w :
    Block.validate exMidTampered = false ∧
    ∃ errs, validateChain exMidTamperedSt 3 = some (VcOutcome.resolves errs) ∧
      ChainError.invalidBlock (exState3.chain.getD 1 dfltBlock).hash ∈ errs ∧ errs ≠ [] :=
  tamper_detection_amended.2 exState3.chain 2 1 (exState3.chain.getD 1 dfltBlock) 999
    Body.corrupt (by decide) (by decide) (by decide) (by decide) (by decide) (by decide)
    (by decide) 3 (by decide)
